import Mathlib

/-!
Shallow embedding of the legal-document generation backend
(`src/FlaskApp.py`): an in-memory document store keyed by string ids,
endpoint handlers for question generation, document generation,
retrieval, editing, deletion and translation, with the external
LLM (`generate_with_gemini`) and translator modelled as oracle
functions.  Handlers additionally return the list of prompts sent to
the text generator, so that "the generator is (not) invoked" is a
statement about the model.
-/

namespace FlaskApp

/-! ### Python string primitives

`str.strip()` removes leading and trailing whitespace characters as
determined by `str.isspace()`; `str.split('\n')` splits on the newline
character. We model strings character-wise via `String.data`. -/

/-- The characters Python's `str.strip()` removes: CPython's
`str.isspace()` set — the ASCII whitespace run U+0009–U+000D, the
information separators U+001C–U+001F, space, NEL (U+0085), NBSP
(U+00A0), Ogham space mark (U+1680), the U+2000–U+200A spaces, the
line and paragraph separators (U+2028, U+2029), narrow no-break space
(U+202F), medium mathematical space (U+205F) and ideographic space
(U+3000). -/
def isPyWs (c : Char) : Bool :=
  (0x09 ≤ c.toNat && c.toNat ≤ 0x0d) ||
  (0x1c ≤ c.toNat && c.toNat ≤ 0x20) ||
  c.toNat == 0x85 || c.toNat == 0xa0 || c.toNat == 0x1680 ||
  (0x2000 ≤ c.toNat && c.toNat ≤ 0x200a) ||
  c.toNat == 0x2028 || c.toNat == 0x2029 || c.toNat == 0x202f ||
  c.toNat == 0x205f || c.toNat == 0x3000

/-- Remove leading Python whitespace (`str.lstrip()`). -/
def lstripL (s : List Char) : List Char :=
  s.dropWhile isPyWs

/-- Remove trailing Python whitespace (`str.rstrip()`). -/
def rstripL (s : List Char) : List Char :=
  (s.reverse.dropWhile isPyWs).reverse

/-- Remove leading and trailing Python whitespace (`str.strip()`). -/
def pstripL (s : List Char) : List Char :=
  rstripL (lstripL s)

/-- `str.strip()` on `String`s. -/
def pstrip (s : String) : String :=
  String.mk (pstripL s.data)

/-- `str.split('\n')` : split a character list at newline characters.
The result always has one more element than the number of newlines. -/
def splitNl : List Char → List (List Char)
  | [] => [[]]
  | c :: cs =>
    match splitNl cs with
    | [] => [[c]]
    | l :: ls => if c = '\n' then [] :: l :: ls else (c :: l) :: ls

/-- `[q.strip() for q in s.split('\n') if q.strip()]` : split on newlines,
strip every piece, drop the pieces that strip to nothing. -/
def cleanLinesL (s : List Char) : List (List Char) :=
  ((splitNl s).map pstripL).filter (fun l => !l.isEmpty)

/-- The question-list post-processing of `generate_questions` /
`generate_document` (src/FlaskApp.py line 110/147):
`[q.strip() for q in questions_text.strip().split('\n') if q.strip()]`. -/
def questionsFromText (s : String) : List String :=
  (cleanLinesL (pstripL s.data)).map String.mk

/-- `' '.join(parts)` : join with single spaces. -/
def joinSpace : List String → String
  | [] => ""
  | [s] => s
  | s :: r :: rest => s ++ " " ++ joinSpace (r :: rest)

/-! ### Python `dict` primitives

A Python `dict` is modelled as an association list in insertion order;
actual dicts never hold duplicate keys, which appears as a `Nodup`
hypothesis where a proof needs it. -/

/-- `d.get(k)` / `d[k]` lookup: first (only) entry with the given key. -/
def getEntry {β : Type} : List (String × β) → String → Option β
  | [], _ => none
  | (k, v) :: rest, q => if k = q then some v else getEntry rest q

/-- `d[k] = v` assignment: update the entry in place if the key is
present, otherwise append a new entry. -/
def setEntry {β : Type} : List (String × β) → String → β → List (String × β)
  | [], k, v => [(k, v)]
  | (k', v') :: rest, k, v =>
    if k' = k then (k, v) :: rest else (k', v') :: setEntry rest k v

/-- `del d[k]` : remove the entry with the given key. -/
def delEntry {β : Type} : List (String × β) → String → List (String × β)
  | [], _ => []
  | (k', v') :: rest, k =>
    if k' = k then rest else (k', v') :: delEntry rest k

/-! ### Domain types -/

/-- The stored document record (the dict built in `generate_document`,
mirroring the `LegalDocument` model). `answers` is a question→answer
dict in insertion order. -/
structure Document where
  id : String
  title : String
  document_text : String
  doc_type : String
  language : String
  answers : List (String × String)
deriving Repr, DecidableEq

/-- The in-memory `documents` store: a dict from document id to record. -/
abbrev Store : Type := List (String × Document)

/-- A JSON response from a handler: `ok` carries the payload (HTTP 200),
`err` carries a status code and the `error` message of the JSON body. -/
inductive ApiResp (α : Type) where
  | ok (val : α)
  | err (status : Nat) (msg : String)
deriving Repr, DecidableEq

/-- The translator oracle: given a target language code and a text,
either the translated text or a provider failure message
(a raised exception in the Python code). -/
def Translator : Type := String → String → Except String String

/-- The text-generator oracle, modelling `generate_with_gemini`:
total on prompts (generation failure is out of scope of the claims). -/
def TextGen : Type := String → String

/-- `translate_to_hindi` (src/FlaskApp.py lines 47-54): translate with
target `'hi'`; on any provider failure return the original text. -/
def translate_to_hindi (tr : Translator) (text : String) : String :=
  match tr "hi" text with
  | .ok t => t
  | .error _ => text

/-! ### Prompt templates and the answers text -/

/-- The clarifying-questions instruction (src/FlaskApp.py lines 95-97,
101-103, 135-137, 141-143). -/
def questionPrompt (doc_type : String) : String :=
  "Generate a list of specific questions that will help clarify the names and details needed to create a " ++
    doc_type ++ ". " ++
    "Focus on gathering names, dates, and other essential information. " ++
    "Provide exactly 8-10 clear questions, one per line, numbered."

/-- The document-generation instruction (src/FlaskApp.py lines 159-166,
170-177, 246-253, 257-264). -/
def docPrompt (doc_type answers_text : String) : String :=
  "You are a professional legal document expert. Generate a complete and properly formatted " ++
    doc_type ++ " " ++
    "using the following details:\n\n" ++ answers_text ++ "\n\n" ++
    "The document should be:\n" ++
    "- Professionally formatted\n" ++
    "- Legally sound\n" ++
    "- Complete with all necessary sections\n" ++
    "- Ready to use\n\n" ++
    "Generate the complete document now:"

/-- The `if language == "Hindi": translate_to_hindi(...)` guard that every
prompt construction site applies before calling the generator. -/
def promptFor (tr : Translator) (language base : String) : String :=
  if language = "Hindi" then translate_to_hindi tr base else base

/-- The list comprehension
`[f"{q}: {answers.get(q, '')}" for q in answers.keys() if answers.get(q)]`
(src/FlaskApp.py lines 150 and 241): iterate the mapping's own keys, keep
those whose value is non-empty (truthy). -/
def answersParts (answers : List (String × String)) : List String :=
  ((answers.map Prod.fst).filter
      (fun q => ((getEntry answers q).getD "") ≠ "")).map
    (fun q => q ++ ": " ++ (getEntry answers q).getD "")

/-- `answers_text = ' '.join(...)` without the placeholder fallback —
this is the whole construction on the edit path (line 241). -/
def answersTextRaw (answers : List (String × String)) : String :=
  joinSpace (answersParts answers)

/-- The fixed placeholder used when no non-empty answer exists
(src/FlaskApp.py line 154). -/
def placeholderText : String :=
  "No specific details provided. Generate a template document."

/-- `answers_text` as `generate_document` computes it (lines 150-154):
the raw join, replaced by the placeholder when it is empty (falsy). -/
def answersTextOf (answers : List (String × String)) : String :=
  if answersTextRaw answers = "" then placeholderText else answersTextRaw answers

/-! ### Endpoint handlers

Each handler takes the oracles and the current store, and returns its
response together with the store after the call and the list of prompts
it sent to the text generator, in order. -/

/-- `POST /generate_questions` (src/FlaskApp.py lines 81-117).
`docType?`/`language?` are `data.get('doc_type')` / `data.get('language')`;
a missing or empty (falsy) `doc_type` is a 400. -/
def generate_questions (gen : TextGen) (tr : Translator) (store : Store)
    (docType? : Option String) (language? : Option String) :
    ApiResp (List String) × Store × List String :=
  let language := language?.getD "English"
  match docType? with
  | none => (.err 400 "doc_type is required", store, [])
  | some dt =>
    if dt = "" then (.err 400 "doc_type is required", store, [])
    else
      let prompt := promptFor tr language (questionPrompt dt)
      (.ok (questionsFromText (gen prompt)), store, [prompt])

set_option linter.unusedVariables false in
/-- `POST /generate_document` (src/FlaskApp.py lines 119-201).
`freshId` is the `str(uuid.uuid4())` draw, an input of the model.
The handler also derives a question list from a first generator call
(line 147) that the rest of the code never reads; the model keeps the
call (first element of the trace) and drops the dead binding. -/
def generate_document (gen : TextGen) (tr : Translator) (store : Store)
    (freshId : String) (docType? : Option String) (title? : Option String)
    (answers? : Option (List (String × String))) (language? : Option String) :
    ApiResp Document × Store × List String :=
  let language := language?.getD "English"
  let answers := answers?.getD []
  match docType? with
  | none => (.err 400 "doc_type is required", store, [])
  | some dt =>
    if dt = "" then (.err 400 "doc_type is required", store, [])
    else
      let doc_title := title?.getD ("New " ++ dt)
      let question_prompt := promptFor tr language (questionPrompt dt)
      let questions_text := gen question_prompt
      let answers_text := answersTextOf answers
      let doc_prompt := promptFor tr language (docPrompt dt answers_text)
      let document_text := gen doc_prompt
      let document : Document :=
        { id := freshId, title := doc_title, document_text := document_text,
          doc_type := dt, language := language, answers := answers }
      (.ok document, setEntry store freshId document,
        [question_prompt, doc_prompt])

/-- `GET /documents/<id>` (src/FlaskApp.py lines 208-214). -/
def get_document (store : Store) (docId : String) : ApiResp Document :=
  match getEntry store docId with
  | some d => .ok d
  | none => .err 404 "Document not found"

/-- The body of a `PUT /documents/<id>` request: optional keys
`document_text`, `title`, `answers`, and `regenerate` with
`data.get('regenerate', False)` truthiness. -/
structure Patch where
  document_text : Option String
  title : Option String
  answers : Option (List (String × String))
  regenerate : Bool
deriving Repr, DecidableEq

/-- `PUT /documents/<id>` (src/FlaskApp.py lines 216-276). -/
def edit_document (gen : TextGen) (tr : Translator) (store : Store)
    (docId : String) (p : Patch) : ApiResp Document × Store × List String :=
  match getEntry store docId with
  | none => (.err 404 "Document not found", store, [])
  | some doc0 =>
    let doc1 :=
      match p.document_text with
      | some t => { doc0 with document_text := t }
      | none => doc0
    let doc2 :=
      match p.title with
      | some t => { doc1 with title := t }
      | none => doc1
    match p.answers, p.regenerate with
    | some newAnswers, true =>
      let doc3 := { doc2 with answers := newAnswers }
      let answers_text := answersTextRaw newAnswers
      let doc_prompt := promptFor tr doc3.language (docPrompt doc3.doc_type answers_text)
      let document_text := gen doc_prompt
      let doc4 := { doc3 with document_text := document_text }
      (.ok doc4, setEntry store docId doc4, [doc_prompt])
    | _, _ => (.ok doc2, setEntry store docId doc2, [])

/-- `DELETE /documents/<id>` (src/FlaskApp.py lines 278-285). The `Bool`
payload is the `success` flag of the JSON body. -/
def delete_document (store : Store) (docId : String) :
    ApiResp Bool × Store :=
  match getEntry store docId with
  | none => (.err 404 "Document not found", store)
  | some _ => (.ok true, delEntry store docId)

/-- `POST /translate` (src/FlaskApp.py lines 287-304): no fallback — a
provider failure is caught by the handler's `except` and surfaced as a
500 with the exception's message. -/
def translate_text (tr : Translator) (text? : Option String)
    (target? : Option String) : ApiResp String :=
  let target := target?.getD "hi"
  match text? with
  | none => .err 400 "text is required"
  | some t =>
    if t = "" then .err 400 "text is required"
    else
      match tr target t with
      | .ok s => .ok s
      | .error e => .err 500 ("Translation error: " ++ e)

/-! ### Dictionary lemmas -/

theorem getEntry_eq_none_iff {β : Type} (d : List (String × β)) (k : String) :
    getEntry d k = none ↔ k ∉ d.map Prod.fst := by
  induction d with
  | nil => simp [getEntry]
  | cons hd tl ih =>
    obtain ⟨k', v'⟩ := hd
    by_cases h : k' = k
    · subst h
      simp [getEntry]
    · simp [getEntry, h, ih, Ne.symm h]

theorem getEntry_setEntry_self {β : Type} (d : List (String × β)) (k : String) (v : β) :
    getEntry (setEntry d k v) k = some v := by
  induction d with
  | nil => simp [setEntry, getEntry]
  | cons hd tl ih =>
    obtain ⟨k', v'⟩ := hd
    by_cases h : k' = k
    · simp [setEntry, h, getEntry]
    · simp [setEntry, h, getEntry, ih]

theorem setEntry_of_getEntry_none {β : Type} (d : List (String × β)) (k : String) (v : β)
    (h : getEntry d k = none) : setEntry d k v = d ++ [(k, v)] := by
  induction d with
  | nil => simp [setEntry]
  | cons hd tl ih =>
    obtain ⟨k', v'⟩ := hd
    by_cases hk : k' = k
    · simp [getEntry, hk] at h
    · simp [getEntry, hk] at h
      simp [setEntry, hk, ih h]

theorem getEntry_delEntry_self {β : Type} (d : List (String × β)) (k : String)
    (hnd : (d.map Prod.fst).Nodup) : getEntry (delEntry d k) k = none := by
  induction d with
  | nil => simp [delEntry, getEntry]
  | cons hd tl ih =>
    obtain ⟨k', v'⟩ := hd
    simp only [List.map_cons, List.nodup_cons] at hnd
    by_cases h : k' = k
    · subst h
      simpa [delEntry, getEntry_eq_none_iff] using hnd.1
    · simp [delEntry, h, getEntry, ih hnd.2]

/-! ### C7 : missing or empty doc_type -/

/-- C7. A request to `POST /generate_questions` or `POST /generate_document`
whose body lacks `doc_type` or supplies an empty one yields HTTP 400 with
body `{"error": "doc_type is required"}`; the text generator is not
invoked (empty call trace) and the store is returned unchanged. -/
theorem missing_doc_type_rejected (gen : TextGen) (tr : Translator) (store : Store)
    (freshId : String) (docType? : Option String) (title? : Option String)
    (answers? : Option (List (String × String))) (language? : Option String)
    (h : docType? = none ∨ docType? = some "") :
    generate_questions gen tr store docType? language? =
      (.err 400 "doc_type is required", store, []) ∧
    generate_document gen tr store freshId docType? title? answers? language? =
      (.err 400 "doc_type is required", store, []) := by
  rcases h with h | h <;> subst h <;>
    simp [generate_questions, generate_document]

/-- Witness for `missing_doc_type_rejected` at a concrete empty body. -/
theorem missing_doc_type_rejected_witness :
    generate_questions (fun _ => "Q1") (fun _ t => .ok t) [] none none =
      (.err 400 "doc_type is required", [], []) ∧
    generate_document (fun _ => "Q1") (fun _ t => .ok t) [] "id-1" none none none none =
      (.err 400 "doc_type is required", [], []) :=
  missing_doc_type_rejected (fun _ => "Q1") (fun _ t => .ok t) [] "id-1"
    none none none none (Or.inl rfl)

/-! ### C8 : delete semantics -/

/-- C8. For a stored id, `DELETE /documents/<id>` answers with the success
flag and removes the record, so that a subsequent `GET` on the same id
(without re-creation) answers 404 `Document not found`; for an unknown id
the delete itself answers 404 and leaves the store untouched. The `Nodup`
hypothesis is the Python-dict invariant that keys are unique. -/
theorem delete_document_removes_record (store : Store) (docId : String)
    (hnd : (store.map Prod.fst).Nodup) :
    ((getEntry store docId).isSome = true →
      (delete_document store docId).1 = .ok true ∧
      (delete_document store docId).2 = delEntry store docId ∧
      get_document (delete_document store docId).2 docId =
        .err 404 "Document not found") ∧
    (getEntry store docId = none →
      delete_document store docId = (.err 404 "Document not found", store)) := by
  constructor
  · intro h
    obtain ⟨d, hd⟩ := Option.isSome_iff_exists.mp h
    refine ⟨?_, ?_, ?_⟩
    · simp [delete_document, hd]
    · simp [delete_document, hd]
    · simp [delete_document, hd, get_document, getEntry_delEntry_self store docId hnd]
  · intro h
    simp [delete_document, h]

/-- Witness for `delete_document_removes_record` on a one-record store. -/
theorem delete_document_removes_record_witness :
    let d : Document :=
      { id := "a", title := "T", document_text := "txt", doc_type := "Will",
        language := "English", answers := [] }
    (getEntry [("a", d)] "a").isSome = true ∧
    (delete_document [("a", d)] "a").1 = .ok true ∧
    get_document (delete_document [("a", d)] "a").2 "a" =
      .err 404 "Document not found" := by
  intro d
  have hnd : ((([("a", d)] : Store)).map Prod.fst).Nodup := by simp
  have h := delete_document_removes_record [("a", d)] "a" hnd
  have hs : (getEntry ([("a", d)] : Store) "a").isSome = true := by
    simp [getEntry]
  exact ⟨hs, (h.1 hs).1, (h.1 hs).2.2⟩

/-! ### C10 : get after generate -/

/-- C10. Immediately after a successful `generate_document` returning a
record, `GET /documents/<id>` on that record's id succeeds and returns the
very same record; the supplied answers mapping is stored verbatim in it,
even entries with empty-string values that the generation prompt filtered
out. -/
theorem get_after_generate_roundtrip (gen : TextGen) (tr : Translator)
    (store : Store) (freshId : String) (dt : String) (title? : Option String)
    (answers : List (String × String)) (language? : Option String)
    (hdt : dt ≠ "") :
    ∃ doc : Document,
      (generate_document gen tr store freshId (some dt) title? (some answers)
          language?).1 = .ok doc ∧
      get_document (generate_document gen tr store freshId (some dt) title?
          (some answers) language?).2.1 doc.id = .ok doc ∧
      doc.answers = answers := by
  refine ⟨{ id := freshId, title := title?.getD ("New " ++ dt),
            document_text := gen (promptFor tr (language?.getD "English")
              (docPrompt dt (answersTextOf answers))),
            doc_type := dt, language := language?.getD "English",
            answers := answers }, ?_, ?_, rfl⟩
  · simp [generate_document, hdt]
  · simp [generate_document, hdt, get_document, getEntry_setEntry_self]

/-- Witness for `get_after_generate_roundtrip`: an answers mapping with an
empty-valued entry is stored verbatim. -/
theorem get_after_generate_roundtrip_witness :
    ("Rental Agreement" : String) ≠ "" ∧
    ∃ doc : Document,
      (generate_document (fun _ => "DOC") (fun _ t => .ok t) [] "id-7"
          (some "Rental Agreement") none
          (some [("Tenant Name", "Asha"), ("Date", "")]) (some "English")).1 =
        .ok doc ∧
      get_document (generate_document (fun _ => "DOC") (fun _ t => .ok t) []
          "id-7" (some "Rental Agreement") none
          (some [("Tenant Name", "Asha"), ("Date", "")]) (some "English")).2.1
          doc.id = .ok doc ∧
      doc.answers = [("Tenant Name", "Asha"), ("Date", "")] :=
  ⟨by decide,
    get_after_generate_roundtrip (fun _ => "DOC") (fun _ t => .ok t) [] "id-7"
      "Rental Agreement" none [("Tenant Name", "Asha"), ("Date", "")]
      (some "English") (by decide)⟩

/-! ### Edit-document claims -/

/-- The payload of a 200 response, `none` on an error response. -/
def respDoc {α : Type} : ApiResp α → Option α
  | .ok v => some v
  | .err _ _ => none

/-- C2. Editing a stored document with `answers` present and
`regenerate` true: the patch's answers replace the stored ones, the
document text is overwritten with the generator's response to the
document instruction built from the stored `doc_type` (translated when
the stored `language` is `"Hindi"`) and the join of the new answers'
non-empty entries, the generator is invoked exactly once, and the
updated record is both persisted and returned. -/
theorem edit_regenerate_replaces_answers_and_text (gen : TextGen)
    (tr : Translator) (store : Store) (docId : String) (p : Patch)
    (doc0 : Document) (A : List (String × String))
    (hget : getEntry store docId = some doc0)
    (hA : p.answers = some A) (hreg : p.regenerate = true) :
    (respDoc (edit_document gen tr store docId p).1).map Document.answers =
      some A ∧
    (respDoc (edit_document gen tr store docId p).1).map Document.document_text =
      some (gen (promptFor tr doc0.language
        (docPrompt doc0.doc_type (answersTextRaw A)))) ∧
    (edit_document gen tr store docId p).2.2 =
      [promptFor tr doc0.language (docPrompt doc0.doc_type (answersTextRaw A))] ∧
    getEntry (edit_document gen tr store docId p).2.1 docId =
      respDoc (edit_document gen tr store docId p).1 := by
  obtain ⟨dtx, ttl, ans, reg⟩ := p
  simp only at hA hreg
  subst hA hreg
  cases dtx <;> cases ttl <;>
    simp [edit_document, hget, respDoc, getEntry_setEntry_self]

/-- Witness for `edit_regenerate_replaces_answers_and_text`. -/
theorem edit_regenerate_replaces_answers_and_text_witness :
    let d : Document :=
      { id := "a", title := "T", document_text := "old", doc_type := "Will",
        language := "English", answers := [("Q1", "x")] }
    let p : Patch :=
      { document_text := none, title := none,
        answers := some [("Q1", "y")], regenerate := true }
    let gen : TextGen := fun _ => "NEWDOC"
    let tr : Translator := fun _ t => .ok t
    (respDoc (edit_document gen tr [("a", d)] "a" p).1).map Document.answers =
      some [("Q1", "y")] ∧
    (respDoc (edit_document gen tr [("a", d)] "a" p).1).map
        Document.document_text =
      some (gen (promptFor tr d.language
        (docPrompt d.doc_type (answersTextRaw [("Q1", "y")])))) ∧
    (edit_document gen tr [("a", d)] "a" p).2.2 =
      [promptFor tr d.language (docPrompt d.doc_type (answersTextRaw [("Q1", "y")]))] := by
  intro d p gen tr
  have h := edit_regenerate_replaces_answers_and_text gen tr [("a", d)] "a" p d
    [("Q1", "y")] (by simp [getEntry]) rfl rfl
  exact ⟨h.1, h.2.1, h.2.2.1⟩

/-- C3. Editing a stored document with `answers` present but `regenerate`
false (or absent, which `data.get('regenerate', False)` defaults to
false): the stored answers are left as they were, the generator is never
invoked, and the stored document text changes only if the patch itself
carries a `document_text` key. -/
theorem edit_answers_without_regenerate_is_noop (gen : TextGen)
    (tr : Translator) (store : Store) (docId : String) (p : Patch)
    (doc0 : Document) (A : List (String × String))
    (hget : getEntry store docId = some doc0)
    (hA : p.answers = some A) (hreg : p.regenerate = false) :
    (getEntry (edit_document gen tr store docId p).2.1 docId).map
        Document.answers = some doc0.answers ∧
    (edit_document gen tr store docId p).2.2 = [] ∧
    (p.document_text = none →
      (getEntry (edit_document gen tr store docId p).2.1 docId).map
          Document.document_text = some doc0.document_text) := by
  obtain ⟨dtx, ttl, ans, reg⟩ := p
  simp only at hA hreg
  subst hA hreg
  cases dtx <;> cases ttl <;>
    simp [edit_document, hget, getEntry_setEntry_self]

/-- Witness for `edit_answers_without_regenerate_is_noop`. -/
theorem edit_answers_without_regenerate_is_noop_witness :
    let d : Document :=
      { id := "a", title := "T", document_text := "old", doc_type := "Will",
        language := "English", answers := [("Q1", "x")] }
    let p : Patch :=
      { document_text := none, title := none,
        answers := some [("Q1", "y")], regenerate := false }
    let gen : TextGen := fun _ => "NEWDOC"
    let tr : Translator := fun _ t => .ok t
    (getEntry (edit_document gen tr [("a", d)] "a" p).2.1 "a").map
        Document.answers = some [("Q1", "x")] ∧
    (edit_document gen tr [("a", d)] "a" p).2.2 = [] ∧
    (getEntry (edit_document gen tr [("a", d)] "a" p).2.1 "a").map
        Document.document_text = some "old" := by
  intro d p gen tr
  have h := edit_answers_without_regenerate_is_noop gen tr [("a", d)] "a" p d
    [("Q1", "y")] (by simp [getEntry]) rfl rfl
  exact ⟨h.1, h.2.1, h.2.2 rfl⟩

/-- C4. A patch carrying only `title` overwrites the title verbatim and
leaves every other field unchanged (the whole handler result is the
title-updated record, persisted, with no generator call); and no patch
whatsoever changes the returned or stored record's `id`, `doc_type` or
`language`. -/
theorem edit_title_only_and_immutable_fields (gen : TextGen)
    (tr : Translator) (store : Store) (docId : String) (p : Patch)
    (doc0 : Document) (newTitle : String)
    (hget : getEntry store docId = some doc0) :
    ((respDoc (edit_document gen tr store docId p).1).map Document.id =
        some doc0.id ∧
     (respDoc (edit_document gen tr store docId p).1).map Document.doc_type =
        some doc0.doc_type ∧
     (respDoc (edit_document gen tr store docId p).1).map Document.language =
        some doc0.language ∧
     getEntry (edit_document gen tr store docId p).2.1 docId =
        respDoc (edit_document gen tr store docId p).1) ∧
    edit_document gen tr store docId
        { document_text := none, title := some newTitle,
          answers := none, regenerate := false } =
      (.ok { doc0 with title := newTitle },
       setEntry store docId { doc0 with title := newTitle }, []) := by
  constructor
  · obtain ⟨dtx, ttl, ans, reg⟩ := p
    cases dtx <;> cases ttl <;> cases ans <;> cases reg <;>
      simp [edit_document, hget, respDoc, getEntry_setEntry_self]
  · simp [edit_document, hget]

/-- Witness for `edit_title_only_and_immutable_fields`. -/
theorem edit_title_only_and_immutable_fields_witness :
    let d : Document :=
      { id := "a", title := "T", document_text := "old", doc_type := "Will",
        language := "English", answers := [("Q1", "x")] }
    let gen : TextGen := fun _ => "NEWDOC"
    let tr : Translator := fun _ t => .ok t
    edit_document gen tr [("a", d)] "a"
        { document_text := none, title := some "Better title",
          answers := none, regenerate := false } =
      (.ok { d with title := "Better title" },
       setEntry [("a", d)] "a" { d with title := "Better title" }, []) := by
  intro d gen tr
  exact (edit_title_only_and_immutable_fields gen tr [("a", d)] "a"
    { document_text := none, title := none, answers := none, regenerate := false }
    d "Better title" (by simp [getEntry])).2

/-! ### C1 : fresh ids and uniqueness -/

/-- Appending a record whose id matches its fresh key preserves the
store invariant: keys mirror record ids and record ids are pairwise
distinct. -/
theorem store_append_ids_nodup (store : Store) (freshId : String)
    (doc : Document) (hdoc : doc.id = freshId)
    (hids : (store.map Prod.fst).Nodup)
    (hnotmem : freshId ∉ store.map Prod.fst)
    (hkey : ∀ kd ∈ store, Document.id kd.2 = kd.1) :
    (∀ kd ∈ store ++ [(freshId, doc)], Document.id kd.2 = kd.1) ∧
    ((store ++ [(freshId, doc)]).map (fun kd => Document.id kd.2)).Nodup := by
  have happ : ∀ kd ∈ store ++ [(freshId, doc)], Document.id kd.2 = kd.1 := by
    intro kd hkd
    rcases List.mem_append.mp hkd with h | h
    · exact hkey kd h
    · simp only [List.mem_singleton] at h
      subst h
      simpa using hdoc
  refine ⟨happ, ?_⟩
  rw [List.map_congr_left happ]
  simp only [List.map_append, List.map_cons, List.map_nil]
  exact List.nodup_append.mpr ⟨hids, List.nodup_singleton _,
    by simpa [List.disjoint_singleton] using hnotmem⟩

/-- C1. A successful `generate_document` call with a fresh uuid draw
(`str(uuid.uuid4())`, modelled as the input `freshId`, assumed not to
collide with a stored key) builds the record with that id, appends it to
the store under that id, and returns that record; the id differs from the
id of every previously stored record, and the invariant that stored
record ids are pairwise distinct (and agree with their store keys) is
preserved. -/
theorem generate_document_fresh_id_unique (gen : TextGen) (tr : Translator)
    (store : Store) (freshId : String) (dt : String) (title? : Option String)
    (answers? : Option (List (String × String))) (language? : Option String)
    (hdt : dt ≠ "")
    (hfresh : getEntry store freshId = none)
    (hids : (store.map Prod.fst).Nodup)
    (hkey : ∀ kd ∈ store, Document.id kd.2 = kd.1) :
    ∃ doc : Document,
      (generate_document gen tr store freshId (some dt) title? answers?
          language?).1 = .ok doc ∧
      doc.id = freshId ∧
      (∀ kd ∈ store, Document.id kd.2 ≠ doc.id) ∧
      (generate_document gen tr store freshId (some dt) title? answers?
          language?).2.1 = store ++ [(freshId, doc)] ∧
      (∀ kd ∈ store ++ [(freshId, doc)], Document.id kd.2 = kd.1) ∧
      ((store ++ [(freshId, doc)]).map (fun kd => Document.id kd.2)).Nodup := by
  have hnotmem : freshId ∉ store.map Prod.fst :=
    (getEntry_eq_none_iff store freshId).mp hfresh
  refine ⟨{ id := freshId, title := title?.getD ("New " ++ dt),
            document_text := gen (promptFor tr (language?.getD "English")
              (docPrompt dt (answersTextOf (answers?.getD [])))),
            doc_type := dt, language := language?.getD "English",
            answers := answers?.getD [] }, ?_, rfl, ?_, ?_, ?_, ?_⟩
  case _ => simp [generate_document, hdt]
  case _ =>
    intro kd hkd h
    apply hnotmem
    have hk : kd.1 = freshId := by rw [← hkey kd hkd, h]
    rw [← hk]
    exact List.mem_map_of_mem Prod.fst hkd
  case _ =>
    simp [generate_document, hdt, setEntry_of_getEntry_none store freshId _ hfresh]
  case _ =>
    exact (store_append_ids_nodup store freshId _ rfl hids hnotmem hkey).1
  case _ =>
    exact (store_append_ids_nodup store freshId _ rfl hids hnotmem hkey).2

/-- Witness for `generate_document_fresh_id_unique`: inserting with a
fresh id into a one-record store. -/
theorem generate_document_fresh_id_unique_witness :
    let d : Document :=
      { id := "a", title := "T", document_text := "txt", doc_type := "Will",
        language := "English", answers := [] }
    ∃ doc : Document,
      (generate_document (fun _ => "DOC") (fun _ t => .ok t) [("a", d)] "b"
          (some "Will") none none none).1 = .ok doc ∧
      doc.id = "b" ∧
      (∀ kd ∈ [("a", d)], Document.id kd.2 ≠ doc.id) ∧
      (generate_document (fun _ => "DOC") (fun _ t => .ok t) [("a", d)] "b"
          (some "Will") none none none).2.1 = [("a", d)] ++ [("b", doc)] ∧
      (∀ kd ∈ [("a", d)] ++ [("b", doc)], Document.id kd.2 = kd.1) ∧
      (([("a", d)] ++ [("b", doc)]).map (fun kd => Document.id kd.2)).Nodup := by
  intro d
  exact generate_document_fresh_id_unique (fun _ => "DOC") (fun _ t => .ok t)
    [("a", d)] "b" "Will" none none none (by decide) (by simp [getEntry])
    (by simp) (by intro kd hkd; simp at hkd; subst hkd; rfl)

/-! ### C9 : translation failure handling -/

/-- C9. With a failing translator, internal prompt building falls back
silently to the original untranslated text and the operation proceeds —
generically for `translate_to_hindi` (the guard every internal site
goes through), and end-to-end for Hindi question generation, Hindi
document generation and the Hindi edit-regenerate rebuild, whose
generator call traces carry the untranslated prompts while the handlers
still answer 200 — whereas `POST /translate` surfaces a translator
failure to the caller as a 500 response. -/
theorem translation_failure_fallback_vs_translate (gen : TextGen)
    (tr : Translator) (store : Store) (dt freshId text : String)
    (title? : Option String) (answers A : List (String × String))
    (docId : String) (p : Patch) (doc0 : Document) (e2 : String)
    (hdt : dt ≠ "") (htext : text ≠ "")
    (hfail : ∀ t : String, ∃ err, tr "hi" t = .error err)
    (hget : getEntry store docId = some doc0)
    (hA : p.answers = some A) (hreg : p.regenerate = true)
    (hlang : doc0.language = "Hindi")
    (h2 : tr "hi" text = .error e2) :
    (∀ t : String, translate_to_hindi tr t = t) ∧
    generate_questions gen tr store (some dt) (some "Hindi") =
      (.ok (questionsFromText (gen (questionPrompt dt))), store,
        [questionPrompt dt]) ∧
    ((generate_document gen tr store freshId (some dt) title? (some answers)
        (some "Hindi")).2.2 =
      [questionPrompt dt, docPrompt dt (answersTextOf answers)] ∧
     (respDoc (generate_document gen tr store freshId (some dt) title?
        (some answers) (some "Hindi")).1).isSome = true) ∧
    ((edit_document gen tr store docId p).2.2 =
      [docPrompt doc0.doc_type (answersTextRaw A)] ∧
     (respDoc (edit_document gen tr store docId p).1).isSome = true) ∧
    translate_text tr (some text) none =
      .err 500 ("Translation error: " ++ e2) := by
  have hfb : ∀ t : String, translate_to_hindi tr t = t := by
    intro t
    obtain ⟨err, herr⟩ := hfail t
    simp [translate_to_hindi, herr]
  refine ⟨hfb, ?_, ⟨?_, ?_⟩, ⟨?_, ?_⟩, ?_⟩
  · simp [generate_questions, hdt, promptFor, hfb]
  · simp [generate_document, hdt, promptFor, hfb]
  · simp [generate_document, hdt, respDoc]
  · obtain ⟨dtx, ttl, ans, reg⟩ := p
    simp only at hA hreg
    subst hA hreg
    cases dtx <;> cases ttl <;>
      simp [edit_document, hget, promptFor, hfb, hlang]
  · obtain ⟨dtx, ttl, ans, reg⟩ := p
    simp only at hA hreg
    subst hA hreg
    cases dtx <;> cases ttl <;>
      simp [edit_document, hget, respDoc]
  · simp [translate_text, htext, h2]

/-- Witness for `translation_failure_fallback_vs_translate` with a
translator that always fails, over a stored Hindi document. -/
theorem translation_failure_fallback_vs_translate_witness :
    let tr : Translator := fun _ _ => .error "offline"
    let gen : TextGen := fun _ => "1. Q?"
    let d : Document :=
      { id := "a", title := "T", document_text := "old", doc_type := "Will",
        language := "Hindi", answers := [("Q1", "x")] }
    let p : Patch :=
      { document_text := none, title := none,
        answers := some [("Q1", "y")], regenerate := true }
    (∀ t : String, translate_to_hindi tr t = t) ∧
    generate_questions gen tr [("a", d)] (some "Will") (some "Hindi") =
      (.ok (questionsFromText (gen (questionPrompt "Will"))), [("a", d)],
        [questionPrompt "Will"]) ∧
    (edit_document gen tr [("a", d)] "a" p).2.2 =
      [docPrompt d.doc_type (answersTextRaw [("Q1", "y")])] ∧
    translate_text tr (some "hello") none =
      .err 500 ("Translation error: " ++ "offline") := by
  intro tr gen d p
  have h := translation_failure_fallback_vs_translate gen tr [("a", d)] "Will"
    "id-1" "hello" none [] [("Q1", "y")] "a" p d "offline"
    (by decide) (by decide) (fun t => ⟨"offline", rfl⟩)
    (by simp [getEntry]) rfl rfl rfl rfl
  exact ⟨h.1, h.2.1, h.2.2.2.1.1, h.2.2.2.2⟩

/-! ### C6 : the answers text of generate_document -/

/-- With unique keys (a Python dict), iterating `answers.keys()` and
looking each key up again visits exactly the entry pairs: the
comprehension of line 150 is the filter-map over the entries themselves. -/
theorem answersParts_eq_filter_map (answers : List (String × String))
    (h : (answers.map Prod.fst).Nodup) :
    answersParts answers =
      (answers.filter (fun p => p.2 ≠ "")).map (fun p => p.1 ++ ": " ++ p.2) := by
  induction answers with
  | nil => rfl
  | cons hd tl ih =>
    obtain ⟨k, v⟩ := hd
    simp only [List.map_cons, List.nodup_cons] at h
    obtain ⟨hk, htl⟩ := h
    have hagree : ∀ q ∈ tl.map Prod.fst,
        getEntry ((k, v) :: tl) q = getEntry tl q := by
      intro q hq
      have hne : k ≠ q := fun hEq => hk (hEq ▸ hq)
      simp [getEntry, hne]
    have hfilter : (tl.map Prod.fst).filter
          (fun q => !decide ((getEntry ((k, v) :: tl) q).getD "" = "")) =
        (tl.map Prod.fst).filter
          (fun q => !decide ((getEntry tl q).getD "" = "")) := by
      refine List.filter_congr ?_
      intro q hq
      rw [hagree q hq]
    have hmap : ∀ L : List String, (∀ q ∈ L, q ∈ tl.map Prod.fst) →
        L.map (fun q => q ++ ": " ++ (getEntry ((k, v) :: tl) q).getD "") =
        L.map (fun q => q ++ ": " ++ (getEntry tl q).getD "") := by
      intro L hL
      refine List.map_congr_left ?_
      intro q hq
      rw [hagree q (hL q hq)]
    have hself : getEntry ((k, v) :: tl) k = some v := by simp [getEntry]
    have ihtl := ih htl
    unfold answersParts at ihtl ⊢
    simp only [List.map_cons, List.filter_cons, hself, Option.getD_some,
      ne_eq, decide_not] at ihtl ⊢
    by_cases hv : v = ""
    · rw [if_neg (by simp [hv]), if_neg (by simp [hv])]
      rw [hfilter, hmap _ (fun q hq => List.mem_of_mem_filter hq)]
      exact ihtl
    · rw [if_pos (by simp [hv]), if_pos (by simp [hv])]
      simp only [List.map_cons, hself, Option.getD_some]
      rw [hfilter, hmap _ (fun q hq => List.mem_of_mem_filter hq), ihtl]

/-- A non-empty string has characters. -/
theorem data_ne_nil_of_ne_empty (x : String) (h : x ≠ "") : x.data ≠ [] := by
  intro hnil
  apply h
  cases x with
  | mk d =>
    simp only [String.data] at hnil
    subst hnil
    rfl

/-- A joined part `q ++ ": " ++ v` is never the empty string. -/
theorem part_ne_empty (q v : String) : q ++ ": " ++ v ≠ "" := by
  intro h
  have hlen := congrArg String.length h
  have hcolon : (": " : String).length = 2 := by decide
  have hnil : ("" : String).length = 0 := by decide
  simp only [String.length_append, hcolon, hnil] at hlen
  omega

/-- `' '.join` of a list of non-empty strings with at least one element
is non-empty. -/
theorem joinSpace_ne_empty (parts : List String)
    (hne : parts ≠ []) (hel : ∀ x ∈ parts, x ≠ "") :
    joinSpace parts ≠ "" := by
  obtain ⟨x, rest, rfl⟩ := List.exists_cons_of_ne_nil hne
  have hx : x ≠ "" := hel x (List.mem_cons_self x rest)
  have hxlen : 0 < x.length :=
    List.length_pos.mpr (data_ne_nil_of_ne_empty x hx)
  cases rest with
  | nil =>
    simpa [joinSpace] using hx
  | cons y ys =>
    intro h
    have hlen := congrArg String.length h
    have hnil : ("" : String).length = 0 := by decide
    have hsp : (" " : String).length = 1 := by decide
    simp only [joinSpace, String.length_append, hsp, hnil] at hlen
    omega

/-- C6. In `generate_document`, `answers_text` is the space-separated
join of `"<key>: <value>"` over the supplied mapping's entries with
non-empty values, in the mapping's own order; when no value is non-empty
(in particular for an absent or empty mapping) it is the fixed template
placeholder instead. The final conjunct places `answers_text` inside the
document prompt actually sent to the generator. -/
theorem generate_document_answers_text (gen : TextGen) (tr : Translator)
    (store : Store) (freshId dt : String) (title? : Option String)
    (answers : List (String × String)) (language? : Option String)
    (hdt : dt ≠ "") (hnd : (answers.map Prod.fst).Nodup) :
    ((∃ p ∈ answers, p.2 ≠ "") →
      answersTextOf answers =
        joinSpace ((answers.filter (fun p => p.2 ≠ "")).map
          (fun p => p.1 ++ ": " ++ p.2))) ∧
    ((∀ p ∈ answers, p.2 = "") → answersTextOf answers = placeholderText) ∧
    (generate_document gen tr store freshId (some dt) title? (some answers)
        language?).2.2 =
      [promptFor tr (language?.getD "English") (questionPrompt dt),
       promptFor tr (language?.getD "English")
         (docPrompt dt (answersTextOf answers))] := by
  have hparts := answersParts_eq_filter_map answers hnd
  refine ⟨?_, ?_, ?_⟩
  · rintro ⟨p, hp, hpv⟩
    have hfne : answers.filter (fun p => p.2 ≠ "") ≠ [] :=
      List.ne_nil_of_mem (List.mem_filter.mpr ⟨hp, by simpa using hpv⟩)
    have hraw : answersTextRaw answers ≠ "" := by
      unfold answersTextRaw
      rw [hparts]
      refine joinSpace_ne_empty _ (by simpa using hfne) ?_
      intro x hx
      obtain ⟨q, hq, rfl⟩ := List.mem_map.mp hx
      exact part_ne_empty q.1 q.2
    unfold answersTextOf
    rw [if_neg hraw]
    unfold answersTextRaw
    rw [hparts]
  · intro hall
    have hfnil : answers.filter (fun p => p.2 ≠ "") = [] := by
      simp only [List.filter_eq_nil_iff]
      intro p hp
      simp [hall p hp]
    have hraw : answersTextRaw answers = "" := by
      unfold answersTextRaw
      rw [hparts, hfnil]
      rfl
    unfold answersTextOf
    rw [if_pos hraw]
  · simp [generate_document, hdt]

/-- Witness for `generate_document_answers_text`: one non-empty and one
empty answer. -/
theorem generate_document_answers_text_witness :
    let A : List (String × String) := [("Tenant Name", "Asha"), ("Date", "")]
    answersTextOf A =
      joinSpace ((A.filter (fun p => p.2 ≠ "")).map
        (fun p => p.1 ++ ": " ++ p.2)) ∧
    (generate_document (fun _ => "DOC") (fun _ t => .ok t) [] "id-9"
        (some "Rental Agreement") none (some A) none).2.2 =
      [promptFor (fun _ t => .ok t) "English" (questionPrompt "Rental Agreement"),
       promptFor (fun _ t => .ok t) "English"
         (docPrompt "Rental Agreement" (answersTextOf A))] := by
  intro A
  have h := generate_document_answers_text (fun _ => "DOC") (fun _ t => .ok t)
    [] "id-9" "Rental Agreement" none A none (by decide) (by decide)
  exact ⟨h.1 ⟨("Tenant Name", "Asha"), by decide, by decide⟩, h.2.2⟩

/-! ### C5 : question splitting and trimming

The handler computes
`[q.strip() for q in questions_text.strip().split('\n') if q.strip()]`.
The claim describes the same comprehension without the outer `strip()`;
the lemmas below show the outer strip never changes the result, so the
handler returns exactly the split-trim-filter of the generator response. -/

theorem splitNl_ne_nil (s : List Char) : splitNl s ≠ [] := by
  cases s with
  | nil => simp [splitNl]
  | cons c cs =>
    cases h : splitNl cs with
    | nil => simp [splitNl, h]
    | cons l ls =>
      by_cases hc : c = '\n' <;> simp [splitNl, h, hc]

theorem dropWhile_head_false {p : Char → Bool} {s : List Char} {d : Char}
    {u : List Char} (h : s.dropWhile p = d :: u) : p d = false := by
  induction s with
  | nil => simp [List.dropWhile] at h
  | cons a s' ih =>
    by_cases ha : p a
    · rw [List.dropWhile_cons_of_pos ha] at h
      exact ih h
    · rw [List.dropWhile_cons_of_neg ha] at h
      cases h
      simpa using ha

theorem dropWhile_idem (p : Char → Bool) (s : List Char) :
    (s.dropWhile p).dropWhile p = s.dropWhile p := by
  cases h : s.dropWhile p with
  | nil => rfl
  | cons d u =>
    rw [List.dropWhile_cons_of_neg]
    simp [dropWhile_head_false h]

theorem lstripL_append_of_nil {l : List Char} (m : List Char)
    (h : lstripL l = []) : lstripL (l ++ m) = lstripL m := by
  induction l with
  | nil => rfl
  | cons a l' ih =>
    unfold lstripL at h ⊢
    by_cases ha : isPyWs a
    · rw [List.dropWhile_cons_of_pos ha] at h
      rw [List.cons_append, List.dropWhile_cons_of_pos ha]
      exact ih h
    · rw [List.dropWhile_cons_of_neg ha] at h
      simp at h

theorem lstripL_append_of_cons {l : List Char} {d : Char} {u : List Char}
    (m : List Char) (h : lstripL l = d :: u) :
    lstripL (l ++ m) = d :: (u ++ m) := by
  induction l with
  | nil => simp [lstripL, List.dropWhile] at h
  | cons a l' ih =>
    unfold lstripL at h ⊢
    by_cases ha : isPyWs a
    · rw [List.dropWhile_cons_of_pos ha] at h
      rw [List.cons_append, List.dropWhile_cons_of_pos ha]
      exact ih h
    · rw [List.dropWhile_cons_of_neg ha] at h
      cases h
      rw [List.cons_append, List.dropWhile_cons_of_neg ha]

theorem rstripL_snoc_ws {c : Char} (hc : isPyWs c = true) (u : List Char) :
    rstripL (u ++ [c]) = rstripL u := by
  unfold rstripL
  rw [List.reverse_append]
  simp only [List.reverse_cons, List.reverse_nil, List.nil_append,
    List.singleton_append, List.dropWhile_cons_of_pos hc]

theorem rstripL_cons_not_ws {d : Char} (hd : isPyWs d = false)
    (u : List Char) : rstripL (d :: u) = d :: rstripL u := by
  show (lstripL (d :: u).reverse).reverse = d :: (lstripL u.reverse).reverse
  rw [List.reverse_cons]
  cases h : lstripL u.reverse with
  | nil =>
    have h1 : lstripL [d] = [d] := by simp [lstripL, hd]
    simp [lstripL_append_of_nil _ h, h1, h]
  | cons e w =>
    rw [lstripL_append_of_cons _ h]
    simp

theorem rstripL_idem (s : List Char) : rstripL (rstripL s) = rstripL s := by
  unfold rstripL
  rw [List.reverse_reverse]
  rw [show (s.reverse.dropWhile isPyWs).dropWhile isPyWs
        = s.reverse.dropWhile isPyWs from dropWhile_idem _ _]

theorem pstripL_cons_ws {c : Char} (hc : isPyWs c = true) (l : List Char) :
    pstripL (c :: l) = pstripL l := by
  unfold pstripL lstripL
  rw [List.dropWhile_cons_of_pos hc]

theorem pstripL_snoc_ws {c : Char} (hc : isPyWs c = true) (l : List Char) :
    pstripL (l ++ [c]) = pstripL l := by
  unfold pstripL
  cases h : lstripL l with
  | nil =>
    have h1 : lstripL [c] = [] := by simp [lstripL, hc]
    simp [lstripL_append_of_nil _ h, h, h1]
  | cons d u =>
    rw [lstripL_append_of_cons _ h]
    rw [show d :: (u ++ [c]) = (d :: u) ++ [c] by rfl]
    rw [rstripL_snoc_ws hc]

theorem pstripL_idem (s : List Char) : pstripL (pstripL s) = pstripL s := by
  have hlf : lstripL (pstripL s) = pstripL s := by
    unfold pstripL
    cases h : lstripL s with
    | nil => simp [rstripL, lstripL, List.dropWhile]
    | cons d u =>
      have hd : isPyWs d = false := dropWhile_head_false h
      rw [rstripL_cons_not_ws hd]
      unfold lstripL
      rw [List.dropWhile_cons_of_neg (by simp [hd])]
  show rstripL (lstripL (pstripL s)) = pstripL s
  rw [hlf]
  show rstripL (rstripL (lstripL s)) = pstripL s
  rw [rstripL_idem]
  rfl

theorem pstripL_ne_nil_of_head {c : Char} (hc : isPyWs c = false)
    (l : List Char) : pstripL (c :: l) ≠ [] := by
  unfold pstripL lstripL
  rw [List.dropWhile_cons_of_neg (by simp [hc])]
  unfold rstripL
  intro h
  rw [List.reverse_eq_nil_iff] at h
  have hmem : c ∈ (c :: l).reverse := by simp
  have := List.dropWhile_eq_nil_iff.mp h c hmem
  simp [hc] at this

theorem pstripL_nil : pstripL [] = [] := rfl

theorem splitNl_cons (c : Char) (cs : List Char) :
    splitNl (c :: cs) =
      if c = '\n' then [] :: splitNl cs
      else (c :: (splitNl cs).headI) :: (splitNl cs).tail := by
  cases h : splitNl cs with
  | nil => exact absurd h (splitNl_ne_nil cs)
  | cons l ls =>
    by_cases hc : c = '\n' <;> simp [splitNl, h, hc]

theorem splitNl_snoc_nl (s : List Char) :
    splitNl (s ++ ['\n']) = splitNl s ++ [[]] := by
  induction s with
  | nil => rfl
  | cons a s' ih =>
    rw [List.cons_append, splitNl_cons, splitNl_cons]
    by_cases ha : a = '\n'
    · simp [ha, ih]
    · obtain ⟨l, ls, h⟩ := List.exists_cons_of_ne_nil (splitNl_ne_nil s')
      simp [ha, ih, h]

theorem splitNl_snoc {c : Char} (hc : c ≠ '\n') (s : List Char) :
    ∃ init last, splitNl s = init ++ [last] ∧
      splitNl (s ++ [c]) = init ++ [last ++ [c]] := by
  induction s with
  | nil => exact ⟨[], [], rfl, by simp [splitNl, hc]⟩
  | cons a s' ih =>
    obtain ⟨init, last, h1, h2⟩ := ih
    by_cases ha : a = '\n'
    · subst ha
      refine ⟨[] :: init, last, ?_, ?_⟩
      · rw [splitNl_cons]
        simp [h1]
      · rw [List.cons_append, splitNl_cons]
        simp [h2]
    · cases init with
      | nil =>
        refine ⟨[], a :: last, ?_, ?_⟩
        · rw [splitNl_cons]
          simp [ha, h1]
        · rw [List.cons_append, splitNl_cons]
          simp [ha, h2]
      | cons i is =>
        refine ⟨(a :: i) :: is, last, ?_, ?_⟩
        · rw [splitNl_cons]
          simp [ha, h1]
        · rw [List.cons_append, splitNl_cons]
          simp [ha, h2]

theorem cleanLinesL_cons_ws {c : Char} (hc : isPyWs c = true) (s : List Char) :
    cleanLinesL (c :: s) = cleanLinesL s := by
  by_cases hn : c = '\n'
  · subst hn
    unfold cleanLinesL
    rw [splitNl_cons]
    simp [pstripL_nil]
  · obtain ⟨l, ls, h⟩ := List.exists_cons_of_ne_nil (splitNl_ne_nil s)
    unfold cleanLinesL
    rw [splitNl_cons]
    simp [hn, h, pstripL_cons_ws hc]

theorem cleanLinesL_lstrip (s : List Char) :
    cleanLinesL (lstripL s) = cleanLinesL s := by
  induction s with
  | nil => rfl
  | cons a s' ih =>
    by_cases ha : isPyWs a
    · rw [show lstripL (a :: s') = lstripL s' by simp [lstripL, ha], ih,
        cleanLinesL_cons_ws ha]
    · rw [show lstripL (a :: s') = a :: s' by simp [lstripL, ha]]

theorem cleanLinesL_snoc_ws {c : Char} (hc : isPyWs c = true)
    (u : List Char) : cleanLinesL (u ++ [c]) = cleanLinesL u := by
  by_cases hn : c = '\n'
  · subst hn
    unfold cleanLinesL
    rw [splitNl_snoc_nl]
    simp [pstripL_nil]
  · obtain ⟨init, last, h1, h2⟩ := splitNl_snoc hn u
    unfold cleanLinesL
    rw [h1, h2]
    simp [pstripL_snoc_ws hc]

theorem cleanLinesL_append_ws (w : List Char) :
    (∀ c ∈ w, isPyWs c = true) →
    ∀ u, cleanLinesL (u ++ w) = cleanLinesL u := by
  induction w with
  | nil =>
    intro _ u
    simp
  | cons c w' ih =>
    intro hw u
    have hc : isPyWs c = true := hw c (List.mem_cons_self c w')
    rw [show u ++ c :: w' = (u ++ [c]) ++ w' by simp,
      ih (fun d hd => hw d (List.mem_cons_of_mem c hd)) (u ++ [c]),
      cleanLinesL_snoc_ws hc]

theorem cleanLinesL_rstrip (t : List Char) :
    cleanLinesL (rstripL t) = cleanLinesL t := by
  have hdecomp : t = rstripL t ++ (t.reverse.takeWhile isPyWs).reverse := by
    conv_lhs => rw [← List.reverse_reverse t,
      ← List.takeWhile_append_dropWhile isPyWs t.reverse]
    rw [List.reverse_append]
    rfl
  have hws : ∀ c ∈ (t.reverse.takeWhile isPyWs).reverse, isPyWs c = true := by
    intro c hcmem
    rw [List.mem_reverse] at hcmem
    exact List.mem_takeWhile_imp hcmem
  conv_rhs => rw [hdecomp]
  rw [cleanLinesL_append_ws _ hws (rstripL t)]

theorem cleanLinesL_pstrip (s : List Char) :
    cleanLinesL (pstripL s) = cleanLinesL s := by
  show cleanLinesL (rstripL (lstripL s)) = cleanLinesL s
  rw [cleanLinesL_rstrip, cleanLinesL_lstrip]

theorem cleanLinesL_ne_nil {s : List Char}
    (h : ∃ c ∈ s, isPyWs c = false) : cleanLinesL s ≠ [] := by
  induction s with
  | nil => simp at h
  | cons a s' ih =>
    by_cases ha : isPyWs a
    · rw [cleanLinesL_cons_ws ha]
      apply ih
      obtain ⟨c, hc, hcws⟩ := h
      rcases List.mem_cons.mp hc with rfl | hmem
      · rw [ha] at hcws
        cases hcws
      · exact ⟨c, hmem, hcws⟩
    · have ha' : isPyWs a = false := by simpa using ha
      have hn : a ≠ '\n' := by
        intro hEq
        subst hEq
        have hnl : isPyWs '\n' = true := by decide
        rw [hnl] at ha'
        cases ha'
      obtain ⟨l, ls, hsp⟩ := List.exists_cons_of_ne_nil (splitNl_ne_nil s')
      have hne := pstripL_ne_nil_of_head ha' l
      unfold cleanLinesL
      rw [splitNl_cons]
      simp [hn, hsp, List.filter_cons, hne]

theorem cleanLinesL_elems {s : List Char} :
    ∀ l ∈ cleanLinesL s, l ≠ [] ∧ pstripL l = l := by
  intro l hl
  unfold cleanLinesL at hl
  have h1 := List.of_mem_filter hl
  have h2 := List.mem_of_mem_filter hl
  obtain ⟨m, _, rfl⟩ := List.mem_map.mp h2
  exact ⟨by simpa using h1, pstripL_idem m⟩

/-- The claim's description of question post-processing, for comparison
with the handler: the generator response split on line boundaries, each
line trimmed, empty lines discarded, in order — without the code's outer
`strip()` on the whole response. -/
def specQuestionLines (s : String) : List String :=
  (cleanLinesL s.data).map String.mk

/-- A string made of a non-empty character list is non-empty. -/
theorem mk_ne_empty {l : List Char} (h : l ≠ []) : String.mk l ≠ "" := by
  intro hEq
  exact h (congrArg String.data hEq)

/-- C5. For a non-empty `doc_type`, `generate_questions` returns 200 with
exactly the generator response's lines split on newlines, trimmed, and
with empty lines discarded, in order; the store is unchanged and the
generator is called once with the (possibly translated) question prompt.
If the response has any non-whitespace character the list is non-empty,
and every returned question is a non-empty trimmed string. -/
theorem generate_questions_splits_and_trims (gen : TextGen)
    (tr : Translator) (store : Store) (dt : String)
    (language? : Option String) (hdt : dt ≠ "") :
    ∃ prompt : String,
      prompt = promptFor tr (language?.getD "English") (questionPrompt dt) ∧
      generate_questions gen tr store (some dt) language? =
        (.ok (specQuestionLines (gen prompt)), store, [prompt]) ∧
      ((∃ c ∈ (gen prompt).data, isPyWs c = false) →
        specQuestionLines (gen prompt) ≠ []) ∧
      (∀ q ∈ specQuestionLines (gen prompt), q ≠ "" ∧ pstrip q = q) := by
  have hqt : ∀ s : String, questionsFromText s = specQuestionLines s := by
    intro s
    unfold questionsFromText specQuestionLines
    rw [cleanLinesL_pstrip]
  refine ⟨_, rfl, ?_, ?_, ?_⟩
  · simp [generate_questions, hdt, hqt]
  · intro hex
    unfold specQuestionLines
    intro hnil
    exact cleanLinesL_ne_nil hex (List.map_eq_nil_iff.mp hnil)
  · intro q hq
    obtain ⟨m, hm, rfl⟩ := List.mem_map.mp hq
    obtain ⟨hm1, hm2⟩ := cleanLinesL_elems m hm
    exact ⟨mk_ne_empty hm1, congrArg String.mk hm2⟩

/-- Witness for `generate_questions_splits_and_trims` on a concrete
generator response. -/
theorem generate_questions_splits_and_trims_witness :
    ("Will" : String) ≠ "" ∧
    ∃ prompt : String,
      prompt = promptFor (fun _ t => .ok t) "English" (questionPrompt "Will") ∧
      generate_questions (fun _ => " 1. Who?\n\n2. When?  ")
          (fun _ t => .ok t) [] (some "Will") none =
        (.ok (specQuestionLines
          ((fun _ => " 1. Who?\n\n2. When?  ") prompt)), [], [prompt]) ∧
      ((∃ c ∈ ((fun _ : String => " 1. Who?\n\n2. When?  ") prompt).data,
          isPyWs c = false) →
        specQuestionLines
          ((fun _ : String => " 1. Who?\n\n2. When?  ") prompt) ≠ []) ∧
      (∀ q ∈ specQuestionLines
          ((fun _ : String => " 1. Who?\n\n2. When?  ") prompt),
        q ≠ "" ∧ pstrip q = q) :=
  ⟨by decide,
    generate_questions_splits_and_trims (fun _ => " 1. Who?\n\n2. When?  ")
      (fun _ t => .ok t) [] "Will" none (by decide)⟩

end FlaskApp
